import Mathlib

/-!
Verification of the pyrugosity core (pytopocomplexity/pyrugosity.py).

The elevation samples are modelled as `Option ℝ`: `some x` is a finite
floating-point value idealized as the real `x`, and `none` models the IEEE NaN
produced or propagated by the arithmetic.  All float arithmetic is idealized as
real arithmetic; NaN propagation is tracked explicitly through `Option`.

The development embeds, from the source:
 - `RugosityIndex.compute_triangle_areas` (the per-window surface estimator),
 - the inner `rugosity_filter` closure of `RugosityIndex.calculate_rugosity`,
 - the sequential path (`scipy.ndimage.generic_filter` with `mode = nearest`),
 - the chunked path (`dask map_overlap` with `depth = window_size // 2` and
   `boundary = reflect`, applying `generic_filter` with `mode = nearest` to
   every padded block and trimming the overlap),
 - the validation raise of `calculate_rugosity` and the progress counting,
 - the fringe invalidation performed by `RugosityIndex.analyze`.
-/

namespace Pyrugosity

noncomputable section

/-- NaN-propagating subtraction on elevation samples. -/
def osub (a b : Option ℝ) : Option ℝ :=
  Option.map₂ (fun x y => x - y) a b

/-- Embedding of `np.hypot(v, c)` where the second argument `c` is an ordinary
(never-NaN) float: `hypot` returns the Euclidean norm `sqrt (v^2 + c^2)` and
propagates a NaN first argument. -/
def hypotC (a : Option ℝ) (c : ℝ) : Option ℝ :=
  a.map (fun x => Real.sqrt (x ^ 2 + c ^ 2))

/-- NaN-propagating halving (division by the literal 2). -/
def half (a : Option ℝ) : Option ℝ :=
  a.map (fun x => x / 2)

/-- Heron's formula with the absolute value under the radical, exactly as in
`compute_triangle_areas`: `s = (e1+e2+e3)/2` and
`area = sqrt |s (s-e1) (s-e2) (s-e3)|`.  A NaN edge makes the area NaN. -/
def heronArea (e1 e2 e3 : Option ℝ) : Option ℝ :=
  match e1, e2, e3 with
  | some x, some y, some z =>
      some (Real.sqrt |((x + y + z) / 2) * ((x + y + z) / 2 - x) *
        ((x + y + z) / 2 - y) * ((x + y + z) / 2 - z)|)
  | _, _, _ => none

/-- The numerical-instability guard of `compute_triangle_areas`:
`if np.isnan(area) or area <= 0: area = cell_size ** 2 / 2`.  NaN is `none`;
note that in IEEE arithmetic `NaN <= 0` is false, so the two tests are
disjoint exactly as modelled here. -/
def fixArea (a : Option ℝ) (cs : ℝ) : ℝ :=
  match a with
  | none => cs ^ 2 / 2
  | some x => if x ≤ 0 then cs ^ 2 / 2 else x

/-- One iteration of the sweep of `compute_triangle_areas` at flattened index
`idx`: the three hypot edges, Heron's formula, and the instability fallback.
`center` is read at `len(values) // 2` as in the source. -/
def triangleAreaAt (values : List (Option ℝ)) (cs : ℝ) (idx : ℕ) : ℝ :=
  let center := values.getD (values.length / 2) none
  let v0 := values.getD idx none
  let v1 := values.getD (idx + 1) none
  let corner_dist := Real.sqrt 2 * cs
  let orthogonal_edges := half (hypotC (osub center v0) cs)
  let diagonal_edges := half (hypotC (osub center v0) corner_dist)
  let adjacent_edges := half (hypotC (osub v0 v1) cs)
  fixArea (heronArea orthogonal_edges diagonal_edges adjacent_edges) cs

/-- Embedding of `RugosityIndex.compute_triangle_areas`: the window size is
recovered as `int(np.sqrt(len(values)))`, and the sweep runs over
`i, j in range(window_size - 1)` in row-major order, accumulating
`area * 8` for the triangle at `idx = i * window_size + j`. -/
def compute_triangle_areas (values : List (Option ℝ)) (cs : ℝ) : ℝ :=
  let window_size := Nat.sqrt values.length
  ((List.range (window_size - 1)).map (fun i =>
    ((List.range (window_size - 1)).map (fun j =>
      triangleAreaAt values cs (i * window_size + j) * 8)).sum)).sum

/-- Embedding of the `rugosity_filter` closure in
`RugosityIndex.calculate_rugosity`: surface area over planar area
`((window_size - 1) * cell_size) ** 2`. -/
def rugosity_filter (W : ℕ) (cs : ℝ) (values : List (Option ℝ)) : ℝ :=
  compute_triangle_areas values cs / (((W : ℝ) - 1) * cs) ^ 2

/-- Index resolution of `scipy.ndimage` boundary mode `nearest`
(`a a a a | a b c d | d d d d`): out-of-range indices are clamped to the edge. -/
def nearestIdx (n : ℕ) (i : ℤ) : ℕ :=
  if i < 0 then 0 else if (n : ℤ) ≤ i then n - 1 else i.toNat

/-- Index resolution of `np.pad` / dask `boundary = reflect`
(`d c b | a b c d | c b a`): mirrored about the edge samples without repeating
them, for overhangs of less than the axis length (the only regime the
pipeline reaches). -/
def reflectIdx (n : ℕ) (i : ℤ) : ℕ :=
  if i < 0 then (-i).toNat
  else if (n : ℤ) ≤ i then (2 * ((n : ℤ) - 1) - i).toNat
  else i.toNat

/-- The moving window gathered by the sequential path:
`generic_filter(Z, rugosity_filter, size=W, mode='nearest')` reads, for output
cell `(r, c)`, the `W x W` neighborhood in row-major order with out-of-range
indices resolved by `nearest` clamping. -/
def seqWindow (Z : ℕ → ℕ → Option ℝ) (R C W : ℕ) (r c : ℕ) :
    List (Option ℝ) :=
  ((List.range W).map (fun (di : ℕ) => (List.range W).map (fun (dj : ℕ) =>
    Z (nearestIdx R ((r : ℤ) + (di : ℤ) - ((W / 2 : ℕ) : ℤ)))
      (nearestIdx C ((c : ℤ) + (dj : ℤ) - ((W / 2 : ℕ) : ℤ)))))).flatten

/-- Clamp of a local index into a padded dask block of length `len`
(the `mode='nearest'` behavior of `generic_filter` at the block edges). -/
def blockClamp (len : ℕ) (pos : ℤ) : ℤ :=
  max 0 (min pos ((len : ℤ) - 1))

/-- The moving window gathered by the chunked path for output cell `(r, c)`.
`da.from_array(Z, chunks=(tr, tc))` puts `(r, c)` in the tile whose rows are
`[ (r/tr)*tr , min((r/tr)*tr + tr, R) )` (and similarly for columns);
`map_overlap(..., depth=W//2, boundary='reflect')` extends that tile by
`depth` samples on every side, taking true neighbor samples inside the grid
and reflect-padded samples beyond the true grid boundary; `generic_filter`
then runs on the padded block with `mode='nearest'` clamping at the block
edges, and the overlap is trimmed away. -/
def chunkWindow (Z : ℕ → ℕ → Option ℝ) (R C tr tc W : ℕ) (r c : ℕ) :
    List (Option ℝ) :=
  let d := W / 2
  let tsr := r / tr * tr
  let ter := min (tsr + tr) R
  let tsc := c / tc * tc
  let tec := min (tsc + tc) C
  ((List.range W).map (fun (di : ℕ) => (List.range W).map (fun (dj : ℕ) =>
    Z (reflectIdx R ((tsr : ℤ) - (d : ℤ)
        + blockClamp (ter - tsr + 2 * d) ((r : ℤ) - (tsr : ℤ) + (di : ℤ))))
      (reflectIdx C ((tsc : ℤ) - (d : ℤ)
        + blockClamp (tec - tsc + 2 * d) ((c : ℤ) - (tsc : ℤ) + (dj : ℤ))))))).flatten

/-- Raw (pre-fringe) rugosity of the sequential path at one output cell. -/
def sequentialCell (Z : ℕ → ℕ → Option ℝ) (R C W : ℕ) (cs : ℝ) (r c : ℕ) : ℝ :=
  rugosity_filter W cs (seqWindow Z R C W r c)

/-- Raw (pre-fringe) rugosity of the chunked path at one output cell. -/
def chunkedCell (Z : ℕ → ℕ → Option ℝ) (R C tr tc W : ℕ) (cs : ℝ) (r c : ℕ) : ℝ :=
  rugosity_filter W cs (chunkWindow Z R C tr tc W r c)

/-- Raw rugosity at one cell under the processor selected by
`chunk_processing`. -/
def rawCell (chunk : Bool) (tr tc : ℕ) (Z : ℕ → ℕ → Option ℝ) (R C W : ℕ)
    (cs : ℝ) (r c : ℕ) : ℝ :=
  if chunk then chunkedCell Z R C tr tc W cs r c else sequentialCell Z R C W cs r c

/-- Units of progress reported while computing: the sequential path updates
its `tqdm` bar once per pixel, the chunked path reports per computed tile. -/
def progressUnits (chunk : Bool) (tr tc R C : ℕ) : ℕ :=
  if chunk then ((R + tr - 1) / tr) * ((C + tc - 1) / tc) else R * C

/-- Embedding of `RugosityIndex.calculate_rugosity`: the `window_size`
validation (`ValueError` when even or `< 3`) guards everything, so on the
error path no cell is computed and the progress count is `0`; otherwise the
full raw grid is produced together with the total progress reported. -/
def calculate_rugosity (chunk : Bool) (tr tc : ℕ) (Z : ℕ → ℕ → Option ℝ)
    (R C W : ℕ) (cs : ℝ) : Except String (List (List ℝ)) × ℕ :=
  if W % 2 = 0 ∨ W < 3 then
    (Except.error "window_size must be an odd integer >= 3", 0)
  else
    (Except.ok ((List.range R).map (fun r => (List.range C).map (fun c =>
      rawCell chunk tr tc Z R C W cs r c))), progressUnits chunk tr tc R C)

/-- The fringe predicate of `RugosityIndex.analyze`: with
`fringeval = window_size // 2 + 1`, the slices `[:fringeval, :]`,
`[:, :fringeval]`, `[-fringeval:, :]` and `[:, -fringeval:]` are set to NaN. -/
def inFringe (R C W : ℕ) (r c : ℕ) : Prop :=
  r < W / 2 + 1 ∨ c < W / 2 + 1 ∨ R ≤ r + (W / 2 + 1) ∨ C ≤ c + (W / 2 + 1)

instance (R C W r c : ℕ) : Decidable (inFringe R C W r c) := by
  unfold inFringe; infer_instance

/-- Embedding of the core of `RugosityIndex.analyze` (after the out-of-scope
raster I/O and unit conversion): run `calculate_rugosity`, propagate its
error, and overwrite the fringe of the result with the NaN sentinel. -/
def analyze (chunk : Bool) (tr tc : ℕ) (Z : ℕ → ℕ → Option ℝ) (R C W : ℕ)
    (cs : ℝ) : Except String (List (List (Option ℝ))) :=
  match (calculate_rugosity chunk tr tc Z R C W cs).1 with
  | Except.error e => Except.error e
  | Except.ok raw => Except.ok ((List.range R).map (fun r =>
      (List.range C).map (fun c =>
        if inFringe R C W r c then none else some ((raw.getD r []).getD c 0))))

/-- One cell of the final (fringe-invalidated) output grid. -/
def analyzeCellValue (chunk : Bool) (tr tc : ℕ) (Z : ℕ → ℕ → Option ℝ)
    (R C W : ℕ) (cs : ℝ) (r c : ℕ) : Option ℝ :=
  if inFringe R C W r c then none else some (rawCell chunk tr tc Z R C W cs r c)

/-- The polynomial whose square-rooted absolute value (divided by 16) is the
Heron area of the triangle built on elevation differences `u = center - v0`
and `w = v0 - v1` over a cell of size `cs`.  Writing `P = u^2 + cs^2`,
`Q = u^2 + 2 cs^2`, `T = w^2 + cs^2`, it is
`2 (PQ + QT + TP) - P^2 - Q^2 - T^2`. -/
def heronN (u w cs : ℝ) : ℝ :=
  2 * ((u ^ 2 + cs ^ 2) * (u ^ 2 + 2 * cs ^ 2)
      + (u ^ 2 + 2 * cs ^ 2) * (w ^ 2 + cs ^ 2)
      + (w ^ 2 + cs ^ 2) * (u ^ 2 + cs ^ 2))
    - (u ^ 2 + cs ^ 2) ^ 2 - (u ^ 2 + 2 * cs ^ 2) ^ 2 - (w ^ 2 + cs ^ 2) ^ 2

/-- Heron's product for edge lengths `x/2, y/2, z/2` collapses to a polynomial
in the squared quantities: the nested radicals cancel. -/
lemma heron_prod_sq (x y z P Q T : ℝ) (hx : x ^ 2 = P) (hy : y ^ 2 = Q)
    (hz : z ^ 2 = T) :
    ((x / 2 + y / 2 + z / 2) / 2) * ((x / 2 + y / 2 + z / 2) / 2 - x / 2) *
      ((x / 2 + y / 2 + z / 2) / 2 - y / 2) *
      ((x / 2 + y / 2 + z / 2) / 2 - z / 2)
      = (2 * (P * Q + Q * T + T * P) - P ^ 2 - Q ^ 2 - T ^ 2) / 256 := by
  subst hx hy hz
  ring

/-- Evaluation of `heronArea` on the three hypot-shaped edges produced by the
sweep: the area is `sqrt |heronN u w cs| / 16`. -/
lemma heronArea_eval (u w cs : ℝ) :
    heronArea (some (Real.sqrt (u ^ 2 + cs ^ 2) / 2))
        (some (Real.sqrt (u ^ 2 + 2 * cs ^ 2) / 2))
        (some (Real.sqrt (w ^ 2 + cs ^ 2) / 2))
      = some (Real.sqrt |heronN u w cs| / 16) := by
  have hP : (0 : ℝ) ≤ u ^ 2 + cs ^ 2 := by positivity
  have hQ : (0 : ℝ) ≤ u ^ 2 + 2 * cs ^ 2 := by positivity
  have hT : (0 : ℝ) ≤ w ^ 2 + cs ^ 2 := by positivity
  have hprod := heron_prod_sq (Real.sqrt (u ^ 2 + cs ^ 2))
    (Real.sqrt (u ^ 2 + 2 * cs ^ 2)) (Real.sqrt (w ^ 2 + cs ^ 2))
    (u ^ 2 + cs ^ 2) (u ^ 2 + 2 * cs ^ 2) (w ^ 2 + cs ^ 2)
    (Real.sq_sqrt hP) (Real.sq_sqrt hQ) (Real.sq_sqrt hT)
  simp only [heronArea]
  rw [hprod]
  have habs : |(2 * ((u ^ 2 + cs ^ 2) * (u ^ 2 + 2 * cs ^ 2)
      + (u ^ 2 + 2 * cs ^ 2) * (w ^ 2 + cs ^ 2)
      + (w ^ 2 + cs ^ 2) * (u ^ 2 + cs ^ 2))
      - (u ^ 2 + cs ^ 2) ^ 2 - (u ^ 2 + 2 * cs ^ 2) ^ 2 - (w ^ 2 + cs ^ 2) ^ 2)
        / 256| = |heronN u w cs| / 256 := by
    rw [abs_div]
    norm_num [heronN]
  rw [habs, Real.sqrt_div (abs_nonneg _),
    show (256 : ℝ) = 16 ^ 2 by norm_num,
    Real.sqrt_sq (by norm_num : (0 : ℝ) ≤ 16)]

/-- Evaluation of one sweep iteration when the three samples it reads are
finite: the triangle area is `fixArea` of `sqrt |heronN u w cs| / 16` with
`u` the center-minus-cell and `w` the cell-minus-neighbor difference. -/
lemma triangleAreaAt_eval (values : List (Option ℝ)) (cs : ℝ) (idx : ℕ)
    (cv a0 a1 : ℝ) (hc : values.getD (values.length / 2) none = some cv)
    (h0 : values.getD idx none = some a0)
    (h1 : values.getD (idx + 1) none = some a1) :
    triangleAreaAt values cs idx
      = fixArea (some (Real.sqrt |heronN (cv - a0) (a0 - a1) cs| / 16)) cs := by
  have hdiag : (cv - a0) ^ 2 + (Real.sqrt 2 * cs) ^ 2
      = (cv - a0) ^ 2 + 2 * cs ^ 2 := by
    rw [mul_pow, Real.sq_sqrt (by norm_num : (0 : ℝ) ≤ 2)]
  unfold triangleAreaAt
  rw [hc, h0, h1]
  simp only [osub, Option.map₂, hypotC, half, Option.map_some', Option.some_bind]
  rw [hdiag, heronArea_eval]

/-- The fallback-guarded triangle area is strictly positive whenever the cell
size is. -/
lemma fixArea_pos (a : Option ℝ) {cs : ℝ} (hcs : 0 < cs) : 0 < fixArea a cs := by
  cases a with
  | none => unfold fixArea; positivity
  | some x =>
    unfold fixArea
    by_cases hx : x ≤ 0
    · simp only [hx, if_pos]; positivity
    · simp only [hx, if_neg, not_false_iff]; linarith [lt_of_not_le hx]

/-- Each sweep iteration contributes a strictly positive area. -/
lemma triangleAreaAt_pos (values : List (Option ℝ)) {cs : ℝ} (hcs : 0 < cs)
    (idx : ℕ) : 0 < triangleAreaAt values cs idx :=
  fixArea_pos _ hcs

/-- For a degenerate (flat) triangle the Heron polynomial is a perfect
square. -/
lemma heronN_flat (cs : ℝ) : heronN 0 0 cs = (2 * cs ^ 2) ^ 2 := by
  unfold heronN; ring

/-- A flat triangle evaluates to `cs^2 / 8` and does not hit the fallback. -/
lemma fixArea_flat {cs : ℝ} (hcs : 0 < cs) :
    fixArea (some (Real.sqrt |heronN 0 0 cs| / 16)) cs = cs ^ 2 / 8 := by
  rw [heronN_flat, abs_of_nonneg (by positivity),
    Real.sqrt_sq (by positivity)]
  simp only [fixArea]
  rw [if_neg (not_le.mpr (by positivity))]
  ring

lemma getD_replicate_lt {n i : ℕ} (h : i < n) (a : Option ℝ) :
    (List.replicate n a).getD i none = a := by
  rw [List.getD_eq_getElem _ _ (by simpa using h)]
  simp

/-- The estimator on a constant window: every one of the `(W-1)^2` triangles
contributes exactly `cs^2`, so the total is `(W-1)^2 * cs^2`. -/
lemma compute_triangle_areas_const (v : ℝ) {cs : ℝ} (hcs : 0 < cs) {W : ℕ}
    (hW : 1 ≤ W) :
    compute_triangle_areas (List.replicate (W * W) (some v)) cs
      = ((W - 1 : ℕ) : ℝ) ^ 2 * cs ^ 2 := by
  unfold compute_triangle_areas
  rw [List.length_replicate, Nat.sqrt_eq]
  have hterm : ∀ i ∈ List.range (W - 1), ∀ j ∈ List.range (W - 1),
      triangleAreaAt (List.replicate (W * W) (some v)) cs (i * W + j) * 8
        = cs ^ 2 := by
    intro i hi j hj
    rw [List.mem_range] at hi hj
    have hWW : 1 ≤ W * W := Nat.one_le_iff_ne_zero.mpr (by positivity)
    have hcenter : W * W / 2 < W * W := Nat.div_lt_self (by omega) (by omega)
    have hidx : i * W + j + 1 < W * W := by
      have h1 : i * W ≤ (W - 2) * W := Nat.mul_le_mul_right W (by omega)
      have h2 : (W - 2) * W + W ≤ W * W := by
        calc (W - 2) * W + W ≤ (W - 1) * W := by
              have : (W - 2) + 1 ≤ W - 1 := by omega
              calc (W - 2) * W + W = ((W - 2) + 1) * W := by ring
                _ ≤ (W - 1) * W := Nat.mul_le_mul_right W this
          _ ≤ W * W := Nat.mul_le_mul_right W (by omega)
      omega
    rw [triangleAreaAt_eval _ _ _ v v v
      (by rw [List.length_replicate]; exact getD_replicate_lt hcenter _)
      (getD_replicate_lt (by omega) _) (getD_replicate_lt hidx _)]
    rw [sub_self, fixArea_flat hcs]
    ring
  have hinner : ∀ i ∈ List.range (W - 1),
      ((List.range (W - 1)).map (fun j =>
        triangleAreaAt (List.replicate (W * W) (some v)) cs (i * W + j) * 8)).sum
        = ((W - 1 : ℕ) : ℝ) * cs ^ 2 := by
    intro i hi
    rw [List.map_congr_left (fun j hj => hterm i hi j hj), List.map_const',
      List.sum_replicate, List.length_range, nsmul_eq_mul]
  show ((List.range (W - 1)).map (fun i =>
      ((List.range (W - 1)).map (fun j =>
        triangleAreaAt (List.replicate (W * W) (some v)) cs (i * W + j) * 8)).sum)).sum
      = ((W - 1 : ℕ) : ℝ) ^ 2 * cs ^ 2
  rw [List.map_congr_left hinner, List.map_const', List.sum_replicate,
    List.length_range, nsmul_eq_mul]
  ring

/-- The estimator total is strictly positive whenever `cell_size` is, for any
window of the `W * W` shape the filter produces with `W` at least 3 (so that
the sweep is nonempty); in particular the total is never NaN, zero or
negative. -/
lemma compute_triangle_areas_pos (values : List (Option ℝ)) {cs : ℝ}
    (hcs : 0 < cs) {W : ℕ} (hlen : values.length = W * W) (hW : 3 ≤ W) :
    0 < compute_triangle_areas values cs := by
  unfold compute_triangle_areas
  rw [hlen, Nat.sqrt_eq]
  show 0 < ((List.range (W - 1)).map (fun i => ((List.range (W - 1)).map
    (fun j => triangleAreaAt values cs (i * W + j) * 8)).sum)).sum
  apply List.sum_pos
  · intro x hx
    obtain ⟨i, hi, rfl⟩ := List.mem_map.mp hx
    apply List.sum_pos
    · intro y hy
      obtain ⟨j, hj, rfl⟩ := List.mem_map.mp hy
      have h := triangleAreaAt_pos values hcs (i * W + j)
      linarith
    · simp only [ne_eq, List.map_eq_nil_iff, List.range_eq_nil]
      omega
  · simp only [ne_eq, List.map_eq_nil_iff, List.range_eq_nil]
    omega

/-- A row-major `W x W` gather always yields `W * W` samples. -/
lemma flatten_grid_length (f : ℕ → ℕ → Option ℝ) (W : ℕ) :
    (((List.range W).map (fun di =>
      (List.range W).map (fun dj => f di dj))).flatten).length = W * W := by
  simp [List.length_flatten, List.map_map, Function.comp_def, List.map_const',
    List.sum_replicate, smul_eq_mul]

/-- A row-major gather of a pointwise-constant read is a replicate. -/
lemma flatten_grid_const (f : ℕ → ℕ → Option ℝ) (W : ℕ) (v : ℝ)
    (h : ∀ di dj, f di dj = some v) :
    ((List.range W).map (fun di =>
      (List.range W).map (fun dj => f di dj))).flatten
      = List.replicate (W * W) (some v) := by
  rw [List.eq_replicate_iff]
  refine ⟨flatten_grid_length f W, ?_⟩
  intro b hb
  rw [List.mem_flatten] at hb
  obtain ⟨l, hl, hbl⟩ := hb
  obtain ⟨di, _, rfl⟩ := List.mem_map.mp hl
  obtain ⟨dj, _, rfl⟩ := List.mem_map.mp hbl
  exact h di dj

lemma seqWindow_length (Z : ℕ → ℕ → Option ℝ) (R C W r c : ℕ) :
    (seqWindow Z R C W r c).length = W * W := by
  unfold seqWindow
  exact flatten_grid_length _ W

lemma chunkWindow_length (Z : ℕ → ℕ → Option ℝ) (R C tr tc W r c : ℕ) :
    (chunkWindow Z R C tr tc W r c).length = W * W := by
  unfold chunkWindow
  exact flatten_grid_length _ W

lemma seqWindow_const (v : ℝ) (R C W r c : ℕ) :
    seqWindow (fun _ _ => some v) R C W r c
      = List.replicate (W * W) (some v) := by
  unfold seqWindow
  exact flatten_grid_const _ W v (fun _ _ => rfl)

lemma chunkWindow_const (v : ℝ) (R C tr tc W r c : ℕ) :
    chunkWindow (fun _ _ => some v) R C tr tc W r c
      = List.replicate (W * W) (some v) := by
  unfold chunkWindow
  exact flatten_grid_const _ W v (fun _ _ => rfl)

/-- The rugosity of a constant window is exactly 1. -/
lemma rugosity_filter_const (v : ℝ) {cs : ℝ} (hcs : 0 < cs) {W : ℕ}
    (hW : 3 ≤ W) :
    rugosity_filter W cs (List.replicate (W * W) (some v)) = 1 := by
  unfold rugosity_filter
  rw [compute_triangle_areas_const v hcs (by omega)]
  have hcast : ((W - 1 : ℕ) : ℝ) = (W : ℝ) - 1 := by
    have h1 : (1 : ℕ) ≤ W := by omega
    push_cast [h1]
    ring
  have hW1 : (0 : ℝ) < (W : ℝ) - 1 := by
    have h3 : (3 : ℝ) ≤ (W : ℝ) := by exact_mod_cast hW
    linarith
  have hne : (((W : ℝ) - 1) * cs) ^ 2 ≠ 0 :=
    pow_ne_zero 2 (mul_ne_zero (ne_of_gt hW1) (ne_of_gt hcs))
  rw [hcast, div_eq_one_iff_eq hne]
  ring

/-- On a constant grid every raw cell value is exactly 1, for both
processors. -/
lemma rawCell_const (chunk : Bool) (tr tc : ℕ) (v : ℝ) (R C W : ℕ) {cs : ℝ}
    (hcs : 0 < cs) (hW : 3 ≤ W) (r c : ℕ) :
    rawCell chunk tr tc (fun _ _ => some v) R C W cs r c = 1 := by
  cases chunk with
  | false =>
    show sequentialCell (fun _ _ => some v) R C W cs r c = 1
    unfold sequentialCell
    rw [seqWindow_const, rugosity_filter_const v hcs hW]
  | true =>
    show chunkedCell (fun _ _ => some v) R C tr tc W cs r c = 1
    unfold chunkedCell
    rw [chunkWindow_const, rugosity_filter_const v hcs hW]

/-- For a cell at distance more than `W/2` from every edge, the index read by
the chunked path (block clamp, then reflect at the true boundary) coincides
with the index read by the sequential path (nearest clamp): the window fits
inside both the padded tile and the true grid, so no clamp fires. -/
lemma chunkIdx_eq_nearestIdx (R tr W r di : ℕ) (htr : 0 < tr)
    (h1 : W / 2 + 1 ≤ r) (h2 : r + (W / 2 + 1) < R) (hdi : di < W) :
    reflectIdx R (((r / tr * tr : ℕ) : ℤ) - ((W / 2 : ℕ) : ℤ)
        + blockClamp (min (r / tr * tr + tr) R - r / tr * tr + 2 * (W / 2))
          ((r : ℤ) - ((r / tr * tr : ℕ) : ℤ) + (di : ℤ)))
      = nearestIdx R ((r : ℤ) + (di : ℤ) - ((W / 2 : ℕ) : ℤ)) := by
  have hts : r / tr * tr ≤ r := Nat.div_mul_le_self r tr
  have hrt : r < r / tr * tr + tr := Nat.lt_div_mul_add htr
  set s := r / tr * tr with hs
  set d := W / 2 with hd
  set te := min (s + tr) R with hte
  have htes : s ≤ te := le_min (Nat.le_add_right s tr) (by omega)
  have hrte : r < te := lt_min hrt (by omega)
  have hclamp : blockClamp (te - s + 2 * d) ((r : ℤ) - (s : ℤ) + (di : ℤ))
      = (r : ℤ) - (s : ℤ) + (di : ℤ) := by
    unfold blockClamp
    omega
  rw [hclamp]
  have hidx : (s : ℤ) - ((d : ℕ) : ℤ) + ((r : ℤ) - (s : ℤ) + (di : ℤ))
      = (r : ℤ) + (di : ℤ) - ((d : ℕ) : ℤ) := by ring
  rw [hidx]
  unfold reflectIdx nearestIdx
  rw [if_neg (by omega), if_neg (by omega), if_neg (by omega), if_neg (by omega)]

/-- Away from the fringe, the chunked path gathers exactly the same window as
the sequential path. -/
lemma chunkWindow_eq_seqWindow (Z : ℕ → ℕ → Option ℝ) (R C tr tc W r c : ℕ)
    (htr : 0 < tr) (htc : 0 < tc)
    (hr1 : W / 2 + 1 ≤ r) (hr2 : r + (W / 2 + 1) < R)
    (hc1 : W / 2 + 1 ≤ c) (hc2 : c + (W / 2 + 1) < C) :
    chunkWindow Z R C tr tc W r c = seqWindow Z R C W r c := by
  unfold chunkWindow seqWindow
  refine congrArg List.flatten (List.map_congr_left ?_)
  intro di hdi
  refine List.map_congr_left ?_
  intro dj hdj
  rw [List.mem_range] at hdi hdj
  rw [chunkIdx_eq_nearestIdx R tr W r di htr hr1 hr2 hdi,
    chunkIdx_eq_nearestIdx C tc W c dj htc hc1 hc2 hdj]

/-- Away from the fringe the two processors compute the same raw value. -/
lemma chunkedCell_eq_sequentialCell (Z : ℕ → ℕ → Option ℝ)
    (R C tr tc W : ℕ) (cs : ℝ) (r c : ℕ) (htr : 0 < tr) (htc : 0 < tc)
    (hr1 : W / 2 + 1 ≤ r) (hr2 : r + (W / 2 + 1) < R)
    (hc1 : W / 2 + 1 ≤ c) (hc2 : c + (W / 2 + 1) < C) :
    chunkedCell Z R C tr tc W cs r c = sequentialCell Z R C W cs r c := by
  unfold chunkedCell sequentialCell
  rw [chunkWindow_eq_seqWindow Z R C tr tc W r c htr htc hr1 hr2 hc1 hc2]

/-- The fringe-invalidated per-cell outputs of the two processors agree at
every cell: inside the fringe both are the NaN sentinel, outside it neither
padding policy is exercised and the windows coincide. -/
lemma analyzeCellValue_chunk_eq (tr tc : ℕ) (Z : ℕ → ℕ → Option ℝ)
    (R C W : ℕ) (cs : ℝ) (r c : ℕ) (htr : 0 < tr) (htc : 0 < tc) :
    analyzeCellValue true tr tc Z R C W cs r c
      = analyzeCellValue false tr tc Z R C W cs r c := by
  unfold analyzeCellValue
  by_cases hf : inFringe R C W r c
  · rw [if_pos hf, if_pos hf]
  · rw [if_neg hf, if_neg hf]
    unfold inFringe at hf
    push_neg at hf
    obtain ⟨h1, h2, h3, h4⟩ := hf
    show some (chunkedCell Z R C tr tc W cs r c)
      = some (sequentialCell Z R C W cs r c)
    rw [chunkedCell_eq_sequentialCell Z R C tr tc W cs r c htr htc
      (by omega) (by omega) (by omega) (by omega)]

lemma getD_map_range {α : Type} (f : ℕ → α) (d : α) {i n : ℕ} (h : i < n) :
    ((List.range n).map f).getD i d = f i := by
  rw [List.getD_eq_getElem _ _ (by simpa using h)]
  simp

/-- For a valid window size the analysis succeeds and its output grid is the
pointwise fringe-masked raw grid. -/
lemma analyze_eq_ok (chunk : Bool) (tr tc : ℕ) (Z : ℕ → ℕ → Option ℝ)
    (R C W : ℕ) (cs : ℝ) (hW : ¬(W % 2 = 0 ∨ W < 3)) :
    analyze chunk tr tc Z R C W cs
      = Except.ok ((List.range R).map (fun r => (List.range C).map (fun c =>
          analyzeCellValue chunk tr tc Z R C W cs r c))) := by
  unfold analyze calculate_rugosity
  rw [if_neg hW]
  refine congrArg Except.ok ?_
  refine List.map_congr_left ?_
  intro r hr
  refine List.map_congr_left ?_
  intro c hc
  rw [List.mem_range] at hr hc
  unfold analyzeCellValue
  by_cases hf : inFringe R C W r c
  · rw [if_pos hf, if_pos hf]
  · rw [if_neg hf, if_neg hf, getD_map_range _ _ hr, getD_map_range _ _ hc]

/-- The rugosity of any full `W * W` window is strictly positive. -/
lemma rugosity_filter_pos {cs : ℝ} (hcs : 0 < cs) {W : ℕ} (hW : 3 ≤ W)
    {values : List (Option ℝ)} (hlen : values.length = W * W) :
    0 < rugosity_filter W cs values := by
  unfold rugosity_filter
  apply div_pos (compute_triangle_areas_pos values hcs hlen hW)
  have h3 : (3 : ℝ) ≤ (W : ℝ) := by exact_mod_cast hW
  apply pow_pos
  apply mul_pos _ hcs
  linarith

/-- C1.  For every elevation grid, cell size and window size, running the
chunked processor (with any positive tile shape) and the sequential processor
produces the same final, fringe-invalidated output: in the idealized real
semantics the agreement is exact equality at every cell — in particular
within 1e-6 relative tolerance — and the tile shape never changes the numeric
result (any two tile shapes both equal the sequential output). -/
theorem chunked_equals_sequential_final_output (Z : ℕ → ℕ → Option ℝ)
    (R C W : ℕ) (cs : ℝ) (tr tc tr' tc' : ℕ) (htr : 0 < tr) (htc : 0 < tc) :
    analyze true tr tc Z R C W cs = analyze false tr' tc' Z R C W cs := by
  by_cases hW : W % 2 = 0 ∨ W < 3
  · unfold analyze calculate_rugosity
    rw [if_pos hW, if_pos hW]
  · rw [analyze_eq_ok true tr tc Z R C W cs hW,
      analyze_eq_ok false tr' tc' Z R C W cs hW]
    refine congrArg Except.ok ?_
    refine List.map_congr_left ?_
    intro r _
    refine List.map_congr_left ?_
    intro c _
    exact analyzeCellValue_chunk_eq tr tc Z R C W cs r c htr htc

theorem chunked_equals_sequential_final_output_witness :
    0 < 2 ∧ 0 < 2 ∧
      analyze true 2 2 (fun _ _ => some 0) 5 5 3 1
        = analyze false 3 3 (fun _ _ => some 0) 5 5 3 1 :=
  ⟨by norm_num, by norm_num,
    chunked_equals_sequential_final_output (fun _ _ => some 0) 5 5 3 1 2 2 3 3
      (by norm_num) (by norm_num)⟩

/-- C5.  For every input grid and valid window size the analysis succeeds
with an output of exactly the input's shape (`R` rows of `C` cells), and
every cell within `W/2 + 1` of any of the four edges holds the NaN sentinel,
for either processor. -/
theorem output_shape_and_fringe_invalidated (chunk : Bool) (tr tc : ℕ)
    (Z : ℕ → ℕ → Option ℝ) (R C W : ℕ) (cs : ℝ)
    (hW : ¬(W % 2 = 0 ∨ W < 3)) :
    ∃ g, analyze chunk tr tc Z R C W cs = Except.ok g ∧
      g.length = R ∧ (∀ row ∈ g, row.length = C) ∧
      ∀ r c, r < R → c < C → inFringe R C W r c →
        (g.getD r []).getD c (some 0) = none := by
  refine ⟨_, analyze_eq_ok chunk tr tc Z R C W cs hW, ?_, ?_, ?_⟩
  · simp
  · intro row hrow
    obtain ⟨r, _, rfl⟩ := List.mem_map.mp hrow
    simp
  · intro r c hr hc hf
    rw [getD_map_range _ _ hr, getD_map_range _ _ hc]
    unfold analyzeCellValue
    rw [if_pos hf]

theorem output_shape_and_fringe_invalidated_witness :
    ¬((3 : ℕ) % 2 = 0 ∨ 3 < 3) ∧
      ∃ g, analyze false 1 1 (fun _ _ => some 0) 7 7 3 1 = Except.ok g ∧
        g.length = 7 ∧ (∀ row ∈ g, row.length = 7) ∧
        ∀ r c, r < 7 → c < 7 → inFringe 7 7 3 r c →
          (g.getD r []).getD c (some 0) = none :=
  ⟨by norm_num,
    output_shape_and_fringe_invalidated false 1 1 (fun _ _ => some 0) 7 7 3 1
      (by norm_num)⟩

/-- C8.  On a grid of constant elevation, every non-fringe cell of the final
output equals exactly 1, for either processor; with `R = C = 7`, elevation 10,
`cell_size = 1` and `window_size = 3` the fringe width is 2 and the interior
region is exactly 1 (the witness instantiates that scenario). -/
theorem constant_grid_rugosity_is_one (chunk : Bool) (tr tc : ℕ) (v : ℝ)
    (R C W : ℕ) (cs : ℝ) (hcs : 0 < cs) (hW : 3 ≤ W) (r c : ℕ)
    (hf : ¬inFringe R C W r c) :
    analyzeCellValue chunk tr tc (fun _ _ => some v) R C W cs r c = some 1 := by
  unfold analyzeCellValue
  rw [if_neg hf, rawCell_const chunk tr tc v R C W hcs hW r c]

theorem constant_grid_rugosity_is_one_witness :
    (0 : ℝ) < 1 ∧ (3 : ℕ) ≤ 3 ∧ ¬inFringe 7 7 3 2 2 ∧
      analyzeCellValue false 1 1 (fun _ _ => some 10) 7 7 3 1 2 2 = some 1 :=
  ⟨by norm_num, by norm_num, by decide,
    constant_grid_rugosity_is_one false 1 1 10 7 7 3 1 (by norm_num)
      (by norm_num) 2 2 (by decide)⟩

/-- C4 (amended).  Every non-fringe cell of the final output holds a finite,
strictly positive rugosity value (the fallback keeps the estimator total
positive, and the planar area is positive), for either processor.  The bound
1 claimed by the spec does not hold; see the counterexample. -/
theorem nonfringe_rugosity_positive (chunk : Bool) (tr tc : ℕ)
    (Z : ℕ → ℕ → Option ℝ) (R C W : ℕ) (cs : ℝ) (hcs : 0 < cs)
    (hW : 3 ≤ W) (r c : ℕ) (hf : ¬inFringe R C W r c) :
    ∃ v, analyzeCellValue chunk tr tc Z R C W cs r c = some v ∧ 0 < v := by
  refine ⟨rawCell chunk tr tc Z R C W cs r c, ?_, ?_⟩
  · unfold analyzeCellValue
    rw [if_neg hf]
  · cases chunk with
    | false =>
      exact rugosity_filter_pos hcs hW (seqWindow_length Z R C W r c)
    | true =>
      exact rugosity_filter_pos hcs hW (chunkWindow_length Z R C tr tc W r c)

theorem nonfringe_rugosity_positive_witness :
    (0 : ℝ) < 1 ∧ (3 : ℕ) ≤ 3 ∧ ¬inFringe 7 7 3 3 3 ∧
      ∃ v, analyzeCellValue false 1 1 (fun _ _ => some 0) 7 7 3 1 3 3 = some v
        ∧ 0 < v :=
  ⟨by norm_num, by norm_num, by decide,
    nonfringe_rugosity_positive false 1 1 (fun _ _ => some 0) 7 7 3 1
      (by norm_num) (by norm_num) 3 3 (by decide)⟩

/-- A 7 x 7 elevation grid, flat at 0 except for three perturbed samples
near cell `(3, 3)`. -/
def spikeGrid : ℕ → ℕ → Option ℝ := fun r c =>
  if r = 2 ∧ c = 3 then some (11 / 5)
  else if r = 2 ∧ c = 4 then some (-(14 / 5))
  else if r = 3 ∧ c = 4 then some (11 / 5)
  else some 0

/-- The window the sequential processor gathers at cell `(3, 3)` of
`spikeGrid`. -/
def spikeWindow : List (Option ℝ) :=
  [some 0, some (11 / 5), some (-(14 / 5)),
   some 0, some 0, some (11 / 5),
   some 0, some 0, some 0]

lemma seqWindow_spikeGrid : seqWindow spikeGrid 7 7 3 3 3 = spikeWindow := by
  rfl

lemma triangle_spike_0 : triangleAreaAt spikeWindow 1 0 = Real.sqrt 41 / 400 := by
  rw [triangleAreaAt_eval spikeWindow 1 0 0 0 (11 / 5) rfl rfl rfl]
  have hNval : heronN (0 - 0) (0 - 11 / 5) 1 = -(41 / 625) := by
    unfold heronN; norm_num
  rw [hNval, abs_neg, abs_of_nonneg (by norm_num),
    show (41 / 625 : ℝ) = 41 / (25 : ℝ) ^ 2 by norm_num,
    Real.sqrt_div (by norm_num : (0 : ℝ) ≤ 41),
    Real.sqrt_sq (by norm_num : (0 : ℝ) ≤ 25)]
  simp only [fixArea]
  rw [if_neg (not_le.mpr (by positivity))]
  ring

lemma triangle_spike_1 : triangleAreaAt spikeWindow 1 1 = 21 / 80 := by
  rw [triangleAreaAt_eval spikeWindow 1 1 0 (11 / 5) (-(14 / 5)) rfl rfl rfl]
  have hNval : heronN (0 - 11 / 5) (11 / 5 - -(14 / 5)) 1 = -((21 / 5) ^ 2) := by
    unfold heronN; norm_num
  rw [hNval, abs_neg, abs_of_nonneg (by positivity),
    Real.sqrt_sq (by norm_num : (0 : ℝ) ≤ 21 / 5)]
  simp only [fixArea]
  rw [if_neg (not_le.mpr (by norm_num))]
  norm_num

lemma triangle_spike_3 : triangleAreaAt spikeWindow 1 3 = 1 / 8 := by
  rw [triangleAreaAt_eval spikeWindow 1 3 0 0 0 rfl rfl rfl]
  rw [sub_self, fixArea_flat (by norm_num : (0 : ℝ) < 1)]
  norm_num

lemma triangle_spike_4 : triangleAreaAt spikeWindow 1 4 = Real.sqrt 41 / 400 := by
  rw [triangleAreaAt_eval spikeWindow 1 4 0 0 (11 / 5) rfl rfl rfl]
  have hNval : heronN (0 - 0) (0 - 11 / 5) 1 = -(41 / 625) := by
    unfold heronN; norm_num
  rw [hNval, abs_neg, abs_of_nonneg (by norm_num),
    show (41 / 625 : ℝ) = 41 / (25 : ℝ) ^ 2 by norm_num,
    Real.sqrt_div (by norm_num : (0 : ℝ) ≤ 41),
    Real.sqrt_sq (by norm_num : (0 : ℝ) ≤ 25)]
  simp only [fixArea]
  rw [if_neg (not_le.mpr (by positivity))]
  ring

lemma compute_spikeWindow :
    compute_triangle_areas spikeWindow 1 = 31 / 10 + Real.sqrt 41 / 25 := by
  have hsqrt : Nat.sqrt spikeWindow.length = 3 := by
    rw [show spikeWindow.length = 3 * 3 from rfl]
    exact Nat.sqrt_eq 3
  simp only [compute_triangle_areas, hsqrt]
  norm_num [List.range_succ]
  rw [triangle_spike_0, triangle_spike_1, triangle_spike_3, triangle_spike_4]
  ring

lemma sequentialCell_spike_lt_one : sequentialCell spikeGrid 7 7 3 1 3 3 < 1 := by
  unfold sequentialCell rugosity_filter
  rw [seqWindow_spikeGrid, compute_spikeWindow]
  have h41 : Real.sqrt 41 < 7 := by
    rw [Real.sqrt_lt' (by norm_num : (0 : ℝ) < 7)]
    norm_num
  have hden : (((3 : ℕ) : ℝ) - 1) * 1 = 2 := by norm_num
  rw [hden]
  rw [div_lt_one (by norm_num : (0 : ℝ) < 2 ^ 2)]
  nlinarith [Real.sqrt_nonneg (41 : ℝ)]

/-- C4 (counterexample).  At the non-fringe cell `(3, 3)` of `spikeGrid`
(cell size 1, window size 3) the final output holds a value strictly below 1,
refuting the claim that every computed rugosity ratio at a non-fringe cell is
at least 1. -/
theorem rugosity_below_one_counterexample :
    ¬inFringe 7 7 3 3 3 ∧
      analyzeCellValue false 1 1 spikeGrid 7 7 3 1 3 3
        = some (sequentialCell spikeGrid 7 7 3 1 3 3) ∧
      sequentialCell spikeGrid 7 7 3 1 3 3 < 1 := by
  refine ⟨by decide, ?_, sequentialCell_spike_lt_one⟩
  unfold analyzeCellValue
  rw [if_neg (by decide)]
  rfl

/-- C6 (amended).  A window size that is even or below 3 makes
`calculate_rugosity` fail with the configuration error before any traversal:
no output is produced and the progress counter stays at zero.  (The claim
also asserted that a grid smaller than the window is rejected; the code has
no such check — see the counterexample.) -/
theorem invalid_window_fails_fast (chunk : Bool) (tr tc : ℕ)
    (Z : ℕ → ℕ → Option ℝ) (R C W : ℕ) (cs : ℝ)
    (hW : W % 2 = 0 ∨ W < 3) :
    (calculate_rugosity chunk tr tc Z R C W cs).1
        = Except.error "window_size must be an odd integer >= 3" ∧
      (calculate_rugosity chunk tr tc Z R C W cs).2 = 0 := by
  unfold calculate_rugosity
  rw [if_pos hW]
  exact ⟨rfl, rfl⟩

theorem invalid_window_fails_fast_witness :
    ((4 : ℕ) % 2 = 0 ∨ 4 < 3) ∧
      ((calculate_rugosity false 1 1 (fun _ _ => some 0) 5 5 4 1).1
          = Except.error "window_size must be an odd integer >= 3" ∧
        (calculate_rugosity false 1 1 (fun _ _ => some 0) 5 5 4 1).2 = 0) :=
  ⟨by norm_num,
    invalid_window_fails_fast false 1 1 (fun _ _ => some 0) 5 5 4 1
      (by norm_num)⟩

/-- C6 (counterexample).  A 2 x 2 grid is smaller than the valid window size
3 in both dimensions, yet `calculate_rugosity` succeeds instead of raising a
configuration error: the moving-window filter simply resolves the
out-of-range reads through its padding mode. -/
theorem small_grid_not_rejected :
    ((calculate_rugosity false 1 1 (fun _ _ => some 0) 2 2 3 1).1).isOk
      = true := by
  rfl

/-- Spec-side definition (for comparison with the code): the window the spec
says is gathered for cell `(r, c)` — the same row-major `W x W` neighborhood,
but with out-of-range samples supplied by the reflect (mirror) padding
policy. -/
def reflectWindowSpec (Z : ℕ → ℕ → Option ℝ) (R C W : ℕ) (r c : ℕ) :
    List (Option ℝ) :=
  ((List.range W).map (fun (di : ℕ) => (List.range W).map (fun (dj : ℕ) =>
    Z (reflectIdx R ((r : ℤ) + (di : ℤ) - ((W / 2 : ℕ) : ℤ)))
      (reflectIdx C ((c : ℤ) + (dj : ℤ) - ((W / 2 : ℕ) : ℤ)))))).flatten

lemma nearestIdx_neg_one {n : ℕ} : nearestIdx n (-1) = 0 := by
  unfold nearestIdx
  rw [if_pos (by norm_num)]

lemma nearestIdx_zero {n : ℕ} (h : 1 ≤ n) : nearestIdx n 0 = 0 := by
  unfold nearestIdx
  rw [if_neg (by norm_num), if_neg (by omega)]
  rfl

lemma nearestIdx_one {n : ℕ} (h : 2 ≤ n) : nearestIdx n 1 = 1 := by
  unfold nearestIdx
  rw [if_neg (by norm_num), if_neg (by omega)]
  rfl

lemma reflectIdx_neg_one {n : ℕ} : reflectIdx n (-1) = 1 := by
  unfold reflectIdx
  rw [if_pos (by norm_num)]
  rfl

lemma reflectIdx_zero {n : ℕ} (h : 1 ≤ n) : reflectIdx n 0 = 0 := by
  unfold reflectIdx
  rw [if_neg (by norm_num), if_neg (by omega)]
  rfl

lemma reflectIdx_one {n : ℕ} (h : 2 ≤ n) : reflectIdx n 1 = 1 := by
  unfold reflectIdx
  rw [if_neg (by norm_num), if_neg (by omega)]
  rfl

lemma blockClamp_small {len : ℕ} {pos : ℤ} (h0 : 0 ≤ pos)
    (h1 : pos ≤ (len : ℤ) - 1) : blockClamp len pos = pos := by
  unfold blockClamp
  omega

/-- A 2 x 2 grid with four distinct samples, used to separate the padding
policies at the boundary. -/
def boundaryGrid : ℕ → ℕ → Option ℝ := fun r c =>
  if r = 0 ∧ c = 0 then some 0
  else if r = 0 then some 2
  else if c = 0 then some 1
  else some 3

/-- C7 (counterexample).  At boundary cell `(0, 0)` of a 2 x 2 grid the
sequential processor's gathered window differs from the reflect (mirror)
padded window the claim prescribes: the code clamps to the nearest edge
sample instead of mirroring. -/
theorem sequential_padding_not_reflect :
    seqWindow boundaryGrid 2 2 3 0 0 ≠ reflectWindowSpec boundaryGrid 2 2 3 0 0 := by
  have hL : seqWindow boundaryGrid 2 2 3 0 0
      = [some 0, some 0, some 2, some 0, some 0, some 2, some 1, some 1, some 3] := by
    rfl
  have hR : reflectWindowSpec boundaryGrid 2 2 3 0 0
      = [some 3, some 1, some 3, some 2, some 0, some 2, some 3, some 1, some 3] := by
    rfl
  rw [hL, hR]
  intro h
  norm_num at h

lemma chunk_boundary_idx (n t di : ℕ) (ht : 1 ≤ t) (hn : 1 ≤ n)
    (hdi : di < 3) :
    ((0 / t * t : ℕ) : ℤ) - ((3 / 2 : ℕ) : ℤ)
        + blockClamp (min (0 / t * t + t) n - 0 / t * t + 2 * (3 / 2))
          (((0 : ℕ) : ℤ) - ((0 / t * t : ℕ) : ℤ) + (di : ℤ))
      = ((0 : ℕ) : ℤ) + (di : ℤ) - ((3 / 2 : ℕ) : ℤ) := by
  have h0 : (0 : ℕ) / t * t = 0 := by simp
  rw [h0]
  unfold blockClamp
  omega

/-- C7 (amended).  At windows that read outside the true grid boundary, the
out-of-range samples are supplied by the nearest (edge-replicate) policy in
the sequential processor, and by the reflect (mirror) policy in the chunked
processor at tiles touching the true grid boundary — exhibited at the corner
cell `(0, 0)` for window size 3: the sequential gather replicates the edge
samples, while the chunked gather coincides with the spec's reflect-padded
window. -/
theorem boundary_padding_nearest_vs_reflect (Z : ℕ → ℕ → Option ℝ)
    (R C tr tc : ℕ) (hR : 2 ≤ R) (hC : 2 ≤ C) (htr : 1 ≤ tr) (htc : 1 ≤ tc) :
    seqWindow Z R C 3 0 0
        = [Z 0 0, Z 0 0, Z 0 1, Z 0 0, Z 0 0, Z 0 1, Z 1 0, Z 1 0, Z 1 1] ∧
      chunkWindow Z R C tr tc 3 0 0 = reflectWindowSpec Z R C 3 0 0 ∧
      reflectWindowSpec Z R C 3 0 0
        = [Z 1 1, Z 1 0, Z 1 1, Z 0 1, Z 0 0, Z 0 1, Z 1 1, Z 1 0, Z 1 1] := by
  have hR1 : 1 ≤ R := by omega
  have hC1 : 1 ≤ C := by omega
  refine ⟨?_, ?_, ?_⟩
  · unfold seqWindow
    norm_num [List.range_succ]
    simp only [nearestIdx_neg_one, nearestIdx_zero hR1, nearestIdx_one hR,
      nearestIdx_zero hC1, nearestIdx_one hC]
    simp
  · unfold chunkWindow reflectWindowSpec
    refine congrArg List.flatten (List.map_congr_left ?_)
    intro di hdi
    refine List.map_congr_left ?_
    intro dj hdj
    rw [List.mem_range] at hdi hdj
    rw [chunk_boundary_idx R tr di htr hR1 hdi,
      chunk_boundary_idx C tc dj htc hC1 hdj]
  · unfold reflectWindowSpec
    norm_num [List.range_succ]
    simp only [reflectIdx_neg_one, reflectIdx_zero hR1, reflectIdx_one hR,
      reflectIdx_zero hC1, reflectIdx_one hC]
    simp

theorem boundary_padding_nearest_vs_reflect_witness :
    (2 ≤ 2) ∧ (1 ≤ 1) ∧
      (seqWindow boundaryGrid 2 2 3 0 0
          = [boundaryGrid 0 0, boundaryGrid 0 0, boundaryGrid 0 1,
             boundaryGrid 0 0, boundaryGrid 0 0, boundaryGrid 0 1,
             boundaryGrid 1 0, boundaryGrid 1 0, boundaryGrid 1 1] ∧
        chunkWindow boundaryGrid 2 2 1 1 3 0 0
          = reflectWindowSpec boundaryGrid 2 2 3 0 0 ∧
        reflectWindowSpec boundaryGrid 2 2 3 0 0
          = [boundaryGrid 1 1, boundaryGrid 1 0, boundaryGrid 1 1,
             boundaryGrid 0 1, boundaryGrid 0 0, boundaryGrid 0 1,
             boundaryGrid 1 1, boundaryGrid 1 0, boundaryGrid 1 1]) :=
  ⟨by norm_num, by norm_num,
    boundary_padding_nearest_vs_reflect boundaryGrid 2 2 1 1 (by norm_num)
      (by norm_num) (by norm_num) (by norm_num)⟩

/-- Spec-side definition (for comparison with the code): the estimator as the
spec words it — a `(W-1) x (W-1)` row-major sweep excluding the window's last
row and column; for the swept cell at flattened index `idx = i*W + j` the
three hypot edges are formed against `center`, the sample at the window's
exact center (row `(W-1)/2`, column `(W-1)/2`), the triangle area is Heron's
formula with the absolute value under the radical (with the degenerate-area
fallback), and `area * 8` is accumulated. -/
def surfaceAreaSpec (W : ℕ) (values : List (Option ℝ)) (cs : ℝ) : ℝ :=
  ((List.range (W - 1)).map (fun i =>
    ((List.range (W - 1)).map (fun j =>
      let idx := i * W + j
      let center := values.getD ((W - 1) / 2 * W + (W - 1) / 2) none
      let v0 := values.getD idx none
      let v1 := values.getD (idx + 1) none
      let orthogonal := half (hypotC (osub center v0) cs)
      let diagonal := half (hypotC (osub center v0) (Real.sqrt 2 * cs))
      let adjacent := half (hypotC (osub v0 v1) cs)
      fixArea (heronArea orthogonal diagonal adjacent) cs * 8)).sum)).sum

/-- For odd `W`, the flat center index `len // 2 = W*W/2` is the exact center
of the `W x W` window: row `(W-1)/2`, column `(W-1)/2`. -/
lemma center_index_eq {W : ℕ} (hodd : W % 2 = 1) :
    W * W / 2 = (W - 1) / 2 * W + (W - 1) / 2 := by
  obtain ⟨k, hk⟩ : ∃ k, W = 2 * k + 1 := ⟨W / 2, by omega⟩
  subst hk
  have h1 : (2 * k + 1) * (2 * k + 1) = 2 * (2 * (k * k) + 2 * k) + 1 := by
    ring
  have h2 : (2 * k + 1 - 1) / 2 = k := by omega
  have h3 : k * (2 * k + 1) + k = 2 * (k * k) + 2 * k := by ring
  rw [h1, h2, h3]
  omega

/-- C2.  On a flattened `W x W` window (odd `W`), `compute_triangle_areas`
performs exactly the sweep the spec describes: a `(W-1) x (W-1)` row-major
enumeration excluding the last row and column, reading the center sample at
the window's exact center, forming the three hypot edges, applying Heron's
formula with the absolute value under the radical, and accumulating
`area * 8`. -/
theorem estimator_matches_spec_sweep (W : ℕ) (values : List (Option ℝ))
    (cs : ℝ) (hlen : values.length = W * W) (hodd : W % 2 = 1) :
    compute_triangle_areas values cs = surfaceAreaSpec W values cs := by
  unfold compute_triangle_areas surfaceAreaSpec
  rw [hlen, Nat.sqrt_eq]
  refine congrArg List.sum (List.map_congr_left ?_)
  intro i _
  refine congrArg List.sum (List.map_congr_left ?_)
  intro j _
  unfold triangleAreaAt
  rw [hlen, center_index_eq hodd]

theorem estimator_matches_spec_sweep_witness :
    (List.replicate 9 (some (5 : ℝ))).length = 3 * 3 ∧ (3 % 2 = 1) ∧
      compute_triangle_areas (List.replicate 9 (some (5 : ℝ))) 1
        = surfaceAreaSpec 3 (List.replicate 9 (some (5 : ℝ))) 1 :=
  ⟨rfl, rfl, estimator_matches_spec_sweep 3 _ 1 rfl rfl⟩

/-- C3.  The estimator substitutes the fallback `cs^2 / 2` exactly when a
per-triangle Heron area is NaN or nonpositive, and consequently its total is
always a strictly positive (finite, non-NaN) real for every input window of
valid shape and positive cell size. -/
theorem estimator_fallback_and_positive (values : List (Option ℝ)) (cs : ℝ)
    (W : ℕ) (hcs : 0 < cs) (hlen : values.length = W * W) (hW : 3 ≤ W) :
    (∀ a : Option ℝ, (a = none ∨ ∃ x, a = some x ∧ x ≤ 0) →
        fixArea a cs = cs ^ 2 / 2) ∧
      0 < compute_triangle_areas values cs := by
  constructor
  · rintro a (rfl | ⟨x, rfl, hx⟩)
    · rfl
    · simp only [fixArea]
      rw [if_pos hx]
  · exact compute_triangle_areas_pos values hcs hlen hW

theorem estimator_fallback_and_positive_witness :
    (0 : ℝ) < 1 ∧ (List.replicate 9 (some (0 : ℝ))).length = 3 * 3 ∧
      (3 : ℕ) ≤ 3 ∧
      ((∀ a : Option ℝ, (a = none ∨ ∃ x, a = some x ∧ x ≤ 0) →
          fixArea a 1 = (1 : ℝ) ^ 2 / 2) ∧
        0 < compute_triangle_areas (List.replicate 9 (some (0 : ℝ))) 1) :=
  ⟨by norm_num, rfl, by norm_num,
    estimator_fallback_and_positive (List.replicate 9 (some 0)) 1 3
      (by norm_num) rfl (by norm_num)⟩

/-- C9.  The estimator never reads the window's last row: two windows that
agree on the first `W * (W-1)` flattened samples (all rows but the last)
produce the same total, because the swept indices `idx` and `idx + 1` stay
below `W * (W-1)` and the center sample lies in the middle row. -/
theorem estimator_ignores_last_row (W : ℕ) (values values' : List (Option ℝ))
    (cs : ℝ) (hW : 3 ≤ W) (hlen : values.length = W * W)
    (hlen' : values'.length = W * W)
    (hagree : ∀ i, i < W * (W - 1) → values.getD i none = values'.getD i none) :
    compute_triangle_areas values cs = compute_triangle_areas values' cs := by
  have hWW : W * (W - 1) + W = W * W := by
    have h3 : W - 1 + 1 = W := by omega
    calc W * (W - 1) + W = W * (W - 1 + 1) := by ring
      _ = W * W := by rw [h3]
  have h3W : 3 * W ≤ W * W := Nat.mul_le_mul_right W hW
  unfold compute_triangle_areas
  rw [hlen, hlen', Nat.sqrt_eq]
  refine congrArg List.sum (List.map_congr_left ?_)
  intro i hi
  refine congrArg List.sum (List.map_congr_left ?_)
  intro j hj
  rw [List.mem_range] at hi hj
  have hcen : W * W / 2 < W * (W - 1) := by omega
  have hijlt : i * W + j + 1 < W * (W - 1) := by
    have hmul : i * W + W ≤ (W - 1) * W := by
      have : i + 1 ≤ W - 1 := by omega
      calc i * W + W = (i + 1) * W := by ring
        _ ≤ (W - 1) * W := Nat.mul_le_mul_right W this
    have hcomm : (W - 1) * W = W * (W - 1) := Nat.mul_comm _ _
    omega
  unfold triangleAreaAt
  rw [hlen, hlen', hagree _ hcen, hagree _ (by omega), hagree _ hijlt]

theorem estimator_ignores_last_row_witness :
    (3 : ℕ) ≤ 3 ∧
      (List.replicate 9 (some (2 : ℝ))).length = 3 * 3 ∧
      (List.replicate 6 (some (2 : ℝ)) ++ [some 7, some 8, some 9]).length
        = 3 * 3 ∧
      (∀ i, i < 3 * (3 - 1) →
        (List.replicate 9 (some (2 : ℝ))).getD i none
          = (List.replicate 6 (some (2 : ℝ)) ++ [some 7, some 8, some 9]).getD
              i none) ∧
      compute_triangle_areas (List.replicate 9 (some (2 : ℝ))) 1
        = compute_triangle_areas
            (List.replicate 6 (some (2 : ℝ)) ++ [some 7, some 8, some 9]) 1 :=
  ⟨by norm_num, rfl, rfl,
    fun i hi => by interval_cases i <;> rfl,
    estimator_ignores_last_row 3 _ _ 1 (by norm_num) rfl rfl
      (fun i hi => by interval_cases i <;> rfl)⟩

lemma osub_none_left (b : Option ℝ) : osub none b = none := rfl

lemma osub_none_right (a : Option ℝ) : osub a none = none := by
  cases a <;> rfl

lemma hypotC_none (c : ℝ) : hypotC none c = none := rfl

lemma half_none : half none = none := rfl

lemma heronArea_none_left (e2 e3 : Option ℝ) : heronArea none e2 e3 = none := by
  cases e2 <;> cases e3 <;> rfl

lemma heronArea_none_right (e1 e2 : Option ℝ) : heronArea e1 e2 none = none := by
  cases e1 <;> cases e2 <;> rfl

/-- C10.  NaN elevations never escape the estimator: the total stays finite
and strictly positive, because every triangle whose reads include a NaN
sample gets a NaN Heron area and hence the `cs^2 / 2` fallback. -/
theorem nan_window_estimator_recovers (values : List (Option ℝ)) (cs : ℝ)
    (W : ℕ) (hcs : 0 < cs) (hlen : values.length = W * W) (hW : 3 ≤ W)
    (hnan : none ∈ values) :
    0 < compute_triangle_areas values cs ∧
      ∀ idx, (values.getD (values.length / 2) none = none ∨
          values.getD idx none = none ∨
          values.getD (idx + 1) none = none) →
        triangleAreaAt values cs idx = cs ^ 2 / 2 := by
  refine ⟨compute_triangle_areas_pos values hcs hlen hW, ?_⟩
  intro idx h
  unfold triangleAreaAt
  rcases h with h | h | h <;>
    rw [h] <;>
    simp only [osub_none_left, osub_none_right, hypotC_none, half_none,
      heronArea_none_left, heronArea_none_right] <;>
    rfl

theorem nan_window_estimator_recovers_witness :
    (0 : ℝ) < 1 ∧
      ([some 0, none, some 0, some 0, some 0, some 0, some 0, some 0,
        some (0 : ℝ)].length = 3 * 3) ∧
      (3 : ℕ) ≤ 3 ∧
      (none ∈ [some 0, none, some 0, some 0, some 0, some 0, some 0, some 0,
        some (0 : ℝ)]) ∧
      (0 < compute_triangle_areas [some 0, none, some 0, some 0, some 0,
          some 0, some 0, some 0, some (0 : ℝ)] 1 ∧
        ∀ idx, ([some 0, none, some 0, some 0, some 0, some 0, some 0, some 0,
            some (0 : ℝ)].getD ([some 0, none, some 0, some 0, some 0, some 0,
              some 0, some 0, some (0 : ℝ)].length / 2) none = none ∨
            [some 0, none, some 0, some 0, some 0, some 0, some 0, some 0,
              some (0 : ℝ)].getD idx none = none ∨
            [some 0, none, some 0, some 0, some 0, some 0, some 0, some 0,
              some (0 : ℝ)].getD (idx + 1) none = none) →
          triangleAreaAt [some 0, none, some 0, some 0, some 0, some 0, some 0,
            some 0, some (0 : ℝ)] 1 idx = (1 : ℝ) ^ 2 / 2) :=
  ⟨by norm_num, rfl, by norm_num, by simp,
    nan_window_estimator_recovers _ 1 3 (by norm_num) rfl (by norm_num)
      (by simp)⟩

end

end Pyrugosity
